import Mathlib

/-!
Verification of the Beam transfer engine (beam_transfer package):
shallow embedding of the discovery filter, streaming cipher, segment
planner, wire-header codec, receiver handshake logic, tar path safety,
failure propagation, and the CLI front-end, with theorems checking the
natural-language specification against the code.

Bytes are modelled as `Nat` values below 256, byte strings as `List Nat`,
and Python strings as `List Char` (wrapped in `String` at the boundary).
-/

/-! ## Generic list helpers -/

/-- Boolean test that `p` is a leading run of `s` (Python `str.startswith`
on character lists, also used componentwise on paths). -/
def startsWithGen {α : Type} [DecidableEq α] : List α → List α → Bool
  | [], _ => true
  | _ :: _, [] => false
  | p :: ps, s :: ss => p == s && startsWithGen ps ss

/-- Boolean test that `needle` occurs contiguously inside `haystack`
(Python `needle in haystack` for strings). -/
def hasSubstr {α : Type} [DecidableEq α] (needle : List α) : List α → Bool
  | [] => startsWithGen needle []
  | x :: xs => startsWithGen needle (x :: xs) || hasSubstr needle xs

/-- Big-endian interpretation of a byte list as a natural number
(`struct.unpack` of `!I`, `!H`, `!Q` fields). -/
def beNat (bs : List Nat) : Nat := bs.foldl (fun a b => a * 256 + b) 0

/-- `struct.pack "!B"`. -/
def packB (n : Nat) : List Nat := [n % 256]

/-- `struct.pack "!H"`. -/
def pack16 (n : Nat) : List Nat := [n / 2 ^ 8 % 256, n % 256]

/-- `struct.pack "!I"`. -/
def pack32 (n : Nat) : List Nat :=
  [n / 2 ^ 24 % 256, n / 2 ^ 16 % 256, n / 2 ^ 8 % 256, n % 256]

/-- `struct.pack "!Q"`. -/
def pack64 (n : Nat) : List Nat :=
  [n / 2 ^ 56 % 256, n / 2 ^ 48 % 256, n / 2 ^ 40 % 256, n / 2 ^ 32 % 256,
   n / 2 ^ 24 % 256, n / 2 ^ 16 % 256, n / 2 ^ 8 % 256, n % 256]

/-! ## Discovery (network.py, sender.py, receiver.py)

`NetworkDiscovery.discover_devices` broadcasts `message` and appends
`(addr, response)` for every datagram whose decoded text satisfies the
Python test `message in response`.  `ReceiverDiscovery` replies to any
datagram starting with `SENDER_REQUEST:` by sending the literal
`RECEIVER_READY` back to the sender's IP. -/

/-- The filter `network.py:94`: a received datagram `(addr, response)` is
kept iff `message in response`. -/
def discoverCollect (message : String) (datagrams : List (String × String)) :
    List (String × String) :=
  datagrams.filter (fun d => hasSubstr message.data d.2.data)

/-- The receiver side (`receiver.py:541`): on a datagram starting with
`SENDER_REQUEST:` the receiver sends back the literal `RECEIVER_READY`. -/
def receiverReplyTo (datagram : String) : Option String :=
  if startsWithGen "SENDER_REQUEST:".data datagram.data then some "RECEIVER_READY"
  else none

/-- `FileSender.find_receiver` (sender.py:72): among the discovered
devices, return the first whose IP is not local, falling back to the
first device; `none` when the list is empty. -/
def findReceiver (devices : List (String × String)) (localIps : List String) :
    Option (String × String) :=
  if devices.isEmpty then none
  else
    match devices.filter (fun d => !(localIps.contains d.1)) with
    | d :: _ => some d
    | [] => devices.head?

/-! ## Streaming cipher

Modelled from the spec: `AESCTREncryptor` is imported by sender.py:23 and
receiver.py:23 from `beam_transfer.security`, but src/beam_transfer/security.py
only defines the CBC `AESEncryptor`; the streaming CTR class itself is not
under src/.  Following spec §4.1: AES-256 in CTR mode, 128-bit counter
initialized from `iv`, keystream applied byte-wise; `update` is
length-preserving; `finalize` returns empty.  The AES-256 block core is
abstracted as the function `block` from a 128-bit counter value to the
16 keystream bytes of that block; the CTR construction around it is
explicit. -/
structure AESCTREncryptor where
  block : Nat → List Nat
  counter0 : Nat
  pos : Nat

/-- Byte `j` of the CTR keystream: byte `j % 16` of the encrypted counter
block `counter0 + j / 16` (counter arithmetic modulo `2 ^ 128`). -/
def ctrKeystreamByte (block : Nat → List Nat) (counter0 j : Nat) : Nat :=
  ((block ((counter0 + j / 16) % 2 ^ 128)).getD (j % 16) 0) % 256

/-- Modelled from the spec: construct the streaming cipher from the
32-byte key hash and the 16-byte IV; `blockOf` is the AES-256 encryption
of a counter block under a key. -/
def AESCTREncryptor.init (blockOf : List Nat → Nat → List Nat)
    (keyHash iv : List Nat) : AESCTREncryptor :=
  { block := blockOf keyHash, counter0 := beNat iv, pos := 0 }

/-- Modelled from the spec: `update` XORs the chunk byte-wise against the
next `data.length` keystream bytes and advances the stream position. -/
def AESCTREncryptor.update (c : AESCTREncryptor) (data : List Nat) :
    List Nat × AESCTREncryptor :=
  (data.zipWith Nat.xor
      ((List.range data.length).map (fun j => ctrKeystreamByte c.block c.counter0 (c.pos + j))),
   { c with pos := c.pos + data.length })

/-- Modelled from the spec: `finalize` returns the empty byte string. -/
def AESCTREncryptor.finalize (_ : AESCTREncryptor) : List Nat := []

/-! ## Transfer options and sender-side planning (sender.py) -/

/-- `TransferOptions` (sender.py:32), with Python `int` fields as `Int`. -/
structure TransferOptions where
  chunkSize : Int
  enableCompression : Bool
  compressionLevel : Int
  parallelStreams : Int
  deriving Repr, DecidableEq

/-- `TransferOptions.normalized` (sender.py:41). -/
def TransferOptions.normalized (o : TransferOptions) : TransferOptions :=
  { chunkSize := max (256 * 1024) o.chunkSize,
    enableCompression := o.enableCompression,
    compressionLevel := min 9 (max 0 o.compressionLevel),
    parallelStreams := max 1 (min 4 o.parallelStreams) }

/-- Flag computation of `_async_send_file` (sender.py:133-139):
bit0 COMPRESS iff compression enabled and level positive, bit1
MULTI_STREAM iff more than one stream, bit2 TAR_ARCHIVE for directories. -/
def senderFlags (enable : Bool) (level : Int) (streamCount : Nat) (isDir : Bool) : Nat :=
  (if enable && decide (0 < level) then 1 else 0) |||
    (if 1 < streamCount then 2 else 0) |||
    (if isDir then 4 else 0)

/-- The `compression_level` byte placed on the wire by `_build_header`
(sender.py:281): the option level when compression is enabled and
positive, else 0. -/
def wireLevel (enable : Bool) (level : Int) : Int :=
  if enable && decide (0 < level) then level else 0

/-- `FileReceiver._handle_primary_connection` (receiver.py:149):
compression is on iff the COMPRESS flag bit is set and the header's
compression level is positive. -/
def receiverCompressionEnabled (flags level : Nat) : Bool :=
  (flags &&& 1 != 0) && decide (0 < level)

/-! ## CLI front-end (cli.py) and FileSender construction (sender.py) -/

/-- What kind of filesystem object the argument path names. -/
inductive PathKind where
  | missing
  | regularFile
  | directory
  | otherObject
  deriving Repr, DecidableEq

/-- `Path(filepath).exists()` as used by `cmd_send` (cli.py:22). -/
def pathExists : PathKind → Bool
  | .missing => false
  | _ => true

/-- `Path(filepath).is_file()` as used by `cmd_send` (cli.py:26). -/
def pathIsFile : PathKind → Bool
  | .regularFile => true
  | _ => false

/-- What `cmd_send` does before any network activity. -/
inductive CmdSendStep where
  | exitEarly (code : Nat)
  | runSender
  deriving Repr, DecidableEq

/-- `cmd_send` (cli.py:16-34): exit 1 if the path does not exist, exit 1
if it is not a regular file, otherwise construct a `FileSender` and run
the transfer. -/
def cmdSend (kind : PathKind) : CmdSendStep :=
  if !pathExists kind then .exitEarly 1
  else if !pathIsFile kind then .exitEarly 1
  else .runSender

/-- The fields of `FileSender.__init__` (sender.py:64-70) relevant to
directory support. -/
structure FileSenderInit where
  isDirectory : Bool
  fileSize : Nat
  deriving Repr, DecidableEq

/-- `FileSender.__init__`: `is_directory = os.path.isdir(filepath)` and
`file_size = 0 if is_directory else os.path.getsize(filepath)`. -/
def mkFileSender (kind : PathKind) (sizeOnDisk : Nat) : FileSenderInit :=
  { isDirectory := kind == .directory,
    fileSize := if kind == .directory then 0 else sizeOnDisk }

/-! ## Segment planning (sender.py `_build_segments`) -/

/-- The loop body of `_build_segments` (sender.py:248-252): `k` iterations,
each taking `min base remaining` bytes at the running offset.  IVs are
independent random bytes and are irrelevant to the geometry, so segments
are modelled as `(start, length)` pairs. -/
def buildSegsAux (base : Nat) : Nat → Nat → Nat → List (Nat × Nat)
  | 0, _, _ => []
  | k + 1, remaining, offset =>
    (offset, min base remaining) ::
      buildSegsAux base k (remaining - min base remaining) (offset + min base remaining)

/-- `FileSender._build_segments` (sender.py:243-261): base length
`ceil(file_size / stream_count)`, then the loop, then the final
adjustment replacing the last segment's length by `file_size - start`
when the loop left a shortfall. -/
def buildSegments (fileSize streamCount : Nat) : List (Nat × Nat) :=
  let base := if streamCount = 0 then fileSize else (fileSize + streamCount - 1) / streamCount
  let segs := buildSegsAux base streamCount fileSize 0
  match segs.getLast? with
  | none => segs
  | some last =>
    if last.1 + last.2 < fileSize then segs.dropLast ++ [(last.1, fileSize - last.1)]
    else segs

/-- Sum of the segment lengths. -/
def sumLens (segs : List (Nat × Nat)) : Nat := (segs.map Prod.snd).sum

/-- Boolean check that the segments are consecutive starting at `o`:
each start equals the running offset. -/
def chainFromB (o : Nat) : List (Nat × Nat) → Bool
  | [] => true
  | (st, len) :: rest => st == o && chainFromB (o + len) rest

/-! ## Wire header codec (sender.py `_build_header`,
receiver.py `_handle_primary_connection` / `_handle_client`) -/

/-- A parsed primary header, mirroring the fields read by
`_handle_primary_connection` (receiver.py:138-156).  Segments are
`(iv, offset, length)`. -/
structure PrimaryHeader where
  filename : List Nat
  fileSize : Nat
  keyHash : List Nat
  flags : Nat
  level : Nat
  streamCount : Nat
  chunkSize : Nat
  transferId : List Nat
  segments : List (List Nat × Nat × Nat)
  deriving Repr, DecidableEq

/-- `FileSender._build_header` (sender.py:263-290): filename length and
bytes, file size, key hash, the `!BBHI` block (flags, wire compression
level, segment count, chunk size), transfer id, then per segment the IV
and the `!QQ` offset/length pair. -/
def buildHeader (filename : List Nat) (fileSize : Nat) (keyHash : List Nat)
    (flags : Nat) (enable : Bool) (level : Int) (chunkSize : Nat)
    (transferId : List Nat) (segments : List (List Nat × Nat × Nat)) : List Nat :=
  pack32 filename.length ++ filename ++ pack64 fileSize ++ keyHash ++
    packB flags ++ packB (wireLevel enable level).toNat ++
    pack16 segments.length ++ pack32 chunkSize ++ transferId ++
    segments.foldr (fun s acc => s.1 ++ pack64 s.2.1 ++ pack64 s.2.2 ++ acc) []

/-- The byte string `b"STRM"`. -/
def strmBytes : List Nat := [83, 84, 82, 77]

/-- `FileReceiver._handle_client` (receiver.py:126): a connection is
dispatched as an auxiliary stream iff its first four bytes equal
`b"STRM"`. -/
def dispatchIsStream (firstFour : List Nat) : Bool := firstFour == strmBytes

/-- `reader.readexactly(n)` over a byte list: the first `n` bytes and the
rest, or `none` when fewer than `n` bytes remain. -/
def readN (n : Nat) (s : List Nat) : Option (List Nat × List Nat) :=
  if s.length < n then none else some (s.take n, s.drop n)

/-- The segment-reading loop of `_handle_primary_connection`
(receiver.py:153-156): per stream a 16-byte IV then a `!QQ`
offset/length pair. -/
def parseSegments : Nat → List Nat → Option (List (List Nat × Nat × Nat) × List Nat)
  | 0, s => some ([], s)
  | k + 1, s => do
    let (iv, s) ← readN 16 s
    let (ob, s) ← readN 8 s
    let (lb, s) ← readN 8 s
    let (rest, s) ← parseSegments k s
    pure ((iv, beNat ob, beNat lb) :: rest, s)

/-- `_handle_primary_connection` header parsing (receiver.py:138-156):
the four prefix bytes are the big-endian filename length; then filename,
size, key hash, the `!BBHI` block, transfer id and segments are read with
`readexactly` semantics. -/
def parsePrimary (prefixBytes rest : List Nat) : Option (PrimaryHeader × List Nat) := do
  let flen := beNat prefixBytes
  let (fname, s) ← readN flen rest
  let (szb, s) ← readN 8 s
  let (kh, s) ← readN 32 s
  let (bbhi, s) ← readN 8 s
  let flags := beNat (bbhi.take 1)
  let level := beNat ((bbhi.drop 1).take 1)
  let scount := beNat ((bbhi.drop 2).take 2)
  let csize := beNat (bbhi.drop 4)
  let (tid, s) ← readN 16 s
  let (segs, s) ← parseSegments scount s
  pure (⟨fname, beNat szb, kh, flags, level, scount, csize, tid, segs⟩, s)

/-- A header contains a segment whose byte range `[offset, offset+length)`
is not contained in `[0, fileSize)`. -/
def segsOutOfRange (hdr : PrimaryHeader) : Bool :=
  hdr.segments.any (fun s => decide (hdr.fileSize < s.2.1 + s.2.2))

/-! ## Receiver handshake decision (receiver.py
`_handle_primary_connection`) -/

/-- ASCII whitespace stripped by Python `str.strip()`. -/
def isPySpace (c : Char) : Bool :=
  c == ' ' || c == '\t' || c == '\n' || c == '\r' || c == '\x0b' || c == '\x0c'

/-- Python `str.strip()` on a character list. -/
def pyStrip (s : List Char) : List Char :=
  ((s.dropWhile isPySpace).reverse.dropWhile isPySpace).reverse

/-- The operator prompt test (receiver.py:170):
`response.strip().lower() in {"y", "yes"}`. -/
def operatorAccepts (resp : String) : Bool :=
  let r := (pyStrip resp.data).map Char.toLower
  r == "y".data || r == "yes".data

/-- Key normalisation at the receiver (receiver.py:179): the entered key
is stripped and uppercased before hashing. -/
def normalizeKey (key : List Char) : List Char :=
  (pyStrip key).map Char.toUpper

/-- The action the primary handler takes after parsing the header. -/
inductive ReceiverAction where
  | declineAccept
  | declineKey
  | acceptTar
  | acceptFile
  deriving Repr, DecidableEq

/-- The decision logic of `_handle_primary_connection`
(receiver.py:168-244): decline with `'N'` when the operator does not
answer yes; decline with `'N'` when the SHA-256 hash of the normalised
entered key differs from the header's key hash; otherwise write `'Y'`
and run the tar path (TAR_ARCHIVE flag) or create the output file and
start the stream-0 task.  `hashFn` abstracts `get_key_hash`
(SHA-256 of the UTF-8 key). -/
def receiverDecision (hdr : PrimaryHeader) (opResp key : String)
    (hashFn : List Char → List Nat) : ReceiverAction :=
  if !operatorAccepts opResp then .declineAccept
  else if hashFn (normalizeKey key.data) == hdr.keyHash then
    (if hdr.flags &&& 4 != 0 then .acceptTar else .acceptFile)
  else .declineKey

/-- The single control byte written on the primary connection right after
the decision: `'N'` (78) on either decline, `'Y'` (89) on accept. -/
def firstControlByte : ReceiverAction → Nat
  | .declineAccept => 78
  | .declineKey => 78
  | _ => 89

/-- Whether the decision path creates the output file
(`open(filepath, "wb")` at receiver.py:221 runs only on the
non-directory accept path). -/
def createsOutputFile : ReceiverAction → Bool
  | .acceptFile => true
  | _ => false

/-- Whether the decision path starts the stream-0 segment task
(receiver.py:241-244, non-directory accept path only). -/
def startsStream0 : ReceiverAction → Bool
  | .acceptFile => true
  | _ => false

/-- The sender's reaction to the accept byte (sender.py:153-161): it
proceeds iff the byte read equals `b"Y"`; on anything else it reports
decline and returns `False`. -/
def senderOnAcceptByte (resp : List Nat) : Bool := resp == [89]

/-! ## Failure propagation (receiver.py `TransferState`, finish path) -/

/-- The mutable fields of `TransferState` (receiver.py:40-75) that the
done-callback touches. -/
structure TState where
  remaining : Nat
  err : Bool
  cancelIssued : Bool
  doneEvent : Bool
  deriving Repr, DecidableEq

/-- The state right after a transfer with `streamCount` streams is
registered. -/
def initTState (streamCount : Nat) : TState :=
  { remaining := streamCount, err := false, cancelIssued := false, doneEvent := false }

/-- `TransferState._task_done` (receiver.py:64-75) for a task finishing
with `failed` (its `result()` raised): record the first error, cancel the
sibling tasks, decrement the remaining count, and set the completion
event when no stream remains or an error is recorded. -/
def taskDone (s : TState) (failed : Bool) : TState :=
  { remaining := s.remaining - 1,
    err := s.err || failed,
    cancelIssued := s.cancelIssued || failed,
    doneEvent := s.doneEvent || decide (s.remaining - 1 = 0) || (s.err || failed) }

/-- Fold `_task_done` over a sequence of task completions. -/
def runTasks (s : TState) (results : List Bool) : TState :=
  results.foldl taskDone s

/-- Externally visible actions of the receiver's finish paths. -/
inductive Effect where
  | writeByte (b : Nat)
  | closeConn
  | removeFile
  | rmtreeDir
  | printErr
  | printOk
  deriving Repr, DecidableEq

/-- The file-mode finish path of `_handle_primary_connection`
(receiver.py:251-260): print, write `'N'` on error or `'Y'` on success,
close the connection.  No other effect occurs there. -/
def finalPrimaryEffects (s : TState) : List Effect :=
  if s.err then [.printErr, .writeByte 78, .closeConn]
  else [.printOk, .writeByte 89, .closeConn]

/-- The directory-mode finish path (receiver.py:204-218): on success
write `'Y'`; on failure write `'N'` and remove the partially extracted
target directory with `shutil.rmtree`. -/
def finalTarEffects (success : Bool) : List Effect :=
  if success then [.writeByte 89, .printOk, .closeConn]
  else [.writeByte 78, .rmtreeDir, .printErr, .closeConn]

/-! ## Tar extraction path safety (receiver.py `_safe_join`,
`TarExtractionWorker._extract_members`)

POSIX paths are modelled as character lists; `os.path.abspath` is
modelled for absolute inputs (the code always passes absolute paths
rooted at the download directory) as split-on-slash, normalisation of
`""`/`"."`/`".."` components, and rendering. -/

/-- A character stripped by `member.name.lstrip("./")`
(receiver.py:464). -/
def isSepDot (c : Char) : Bool := c == '.' || c == '/'

/-- `member.name.lstrip("./")`: drop every leading `'.'` or `'/'`. -/
def lstripDotSlash (s : List Char) : List Char := s.dropWhile isSepDot

/-- Worker for splitting a path on `'/'`, accumulating the current
component in reverse. -/
def splitSlashAux : List Char → List Char → List (List Char)
  | [], cur => [cur.reverse]
  | c :: rest, cur =>
    if c == '/' then cur.reverse :: splitSlashAux rest []
    else splitSlashAux rest (c :: cur)

/-- Split a path into its `'/'`-separated components (Python
`"path".split("/")`, including empty components). -/
def splitSlash (s : List Char) : List (List Char) := splitSlashAux s []

/-- One step of `os.path.normpath` component normalisation: drop empty
and `"."` components, pop on `".."` (at the root, `".."` is dropped). -/
def normStep (acc : List (List Char)) (c : List Char) : List (List Char) :=
  if c = [] ∨ c = ['.'] then acc
  else if c = ['.', '.'] then acc.dropLast
  else acc ++ [c]

/-- Normalise the component list of an absolute path. -/
def normComps (cs : List (List Char)) : List (List Char) :=
  cs.foldl normStep []

/-- Render components as `'/' :: c1 ++ '/' :: c2 ++ ...` (the body of an
absolute path). -/
def flatSep (cs : List (List Char)) : List Char :=
  cs.foldr (fun c acc => '/' :: (c ++ acc)) []

/-- Render a normalised absolute component list as a path string;
the empty list is the root `"/"`. -/
def renderComps (cs : List (List Char)) : List Char :=
  if cs.isEmpty then ['/'] else flatSep cs

/-- The normalised components of an absolute path. -/
def abspathComps (s : List Char) : List (List Char) := normComps (splitSlash s)

/-- `os.path.abspath` for absolute inputs: normalise and render. -/
def abspathM (s : List Char) : List Char := renderComps (abspathComps s)

/-- `os.path.join(base, member)` for a base without trailing slash:
`member` when it is absolute, otherwise `base + "/" + member`. -/
def joinPath (base member : List Char) : List Char :=
  if member.head? = some '/' then member else base ++ '/' :: member

/-- `_safe_join` (receiver.py:512-517): compute
`target = abspath(join(abspath(base_dir), member))` and return it when
`target` starts with `base_abs + "/"` or equals `base_abs`; otherwise
raise `ValueError` (the fatal `UnsafePath`), modelled as `Except.error`
carrying the offending member name. -/
def safeJoinChars (baseDir member : List Char) : Except (List Char) (List Char) :=
  if startsWithGen (abspathM baseDir ++ ['/']) (abspathM (joinPath (abspathM baseDir) member))
      || (abspathM (joinPath (abspathM baseDir) member) == abspathM baseDir) then
    .ok (abspathM (joinPath (abspathM baseDir) member))
  else .error member

/-- The target path computed by `_extract_members` (receiver.py:459-465)
for a tar entry named `name`: leading `'.'`/`'/'` characters are stripped,
then `_safe_join` is applied. -/
def extractTarget (baseDir name : List Char) : Except (List Char) (List Char) :=
  safeJoinChars baseDir (lstripDotSlash name)

/-- The normalised components the entry name resolves to under the
code's own resolution (after the `lstrip`). -/
def extractComps (baseDir name : List Char) : List (List Char) :=
  abspathComps (joinPath (abspathM baseDir) (lstripDotSlash name))

/-- A well-formed normalised path component: nonempty, not `"."` or
`".."`, and containing no `'/'`. -/
def goodComp (c : List Char) : Prop :=
  c ≠ [] ∧ c ≠ ['.'] ∧ c ≠ ['.', '.'] ∧ ∀ x ∈ c, x ≠ '/'

/-- A concrete primary header built for the four-byte filename "STRM". -/
def strmHeaderDemo : List Nat :=
  buildHeader strmBytes 6 (List.replicate 32 0) 0 true 1 262144
    (List.replicate 16 9) [(List.replicate 16 7, 0, 6)]

/-- A concrete primary header whose single segment `[5, 15)` is not
contained in `[0, 8)`. -/
def badRangeHeader : PrimaryHeader :=
  ⟨[102], 8, List.replicate 32 0, 0, 0, 1, 262144, List.replicate 16 0,
    [(List.replicate 16 7, 5, 10)]⟩

/-- The wire bytes of `badRangeHeader` as the sender's packer would emit
them. -/
def badRangeHeaderBytes : List Nat :=
  buildHeader [102] 8 (List.replicate 32 0) 0 false 0 262144
    (List.replicate 16 0) [(List.replicate 16 7, 5, 10)]

/-- A concrete primary header whose key hash is all-ones, used to
exercise the wrong-key path. -/
def wrongKeyHeader : PrimaryHeader :=
  ⟨[102], 4, List.replicate 32 1, 0, 0, 1, 262144, List.replicate 16 0, []⟩

/-! ## Helper lemmas -/

theorem startsWithGen_iff {α : Type} [DecidableEq α] (p s : List α) :
    startsWithGen p s = true ↔ ∃ t, p ++ t = s := by
  induction p generalizing s with
  | nil => simp [startsWithGen]
  | cons a p ih =>
    cases s with
    | nil => simp [startsWithGen]
    | cons b s =>
      simp only [startsWithGen, Bool.and_eq_true, beq_iff_eq, ih]
      constructor
      · rintro ⟨rfl, t, rfl⟩
        exact ⟨t, rfl⟩
      · rintro ⟨t, ht⟩
        injection ht with h1 h2
        exact ⟨h1, t, h2⟩

theorem startsWithGen_append_self {α : Type} [DecidableEq α] (p q : List α) :
    startsWithGen p (p ++ q) = true :=
  (startsWithGen_iff p (p ++ q)).mpr ⟨q, rfl⟩

theorem startsWithGen_nil_iff {α : Type} [DecidableEq α] (p : List α) :
    startsWithGen p [] = true ↔ p = [] := by
  cases p <;> simp [startsWithGen]

/-! ## C1: discovery -/

/-- Claim C1 concerns the discovery loop: the spec says the receiver's
`RECEIVER_READY` reply is collected by `discover_devices` within the
discovery window and then returned by `find_receiver`.  The code keeps a
datagram only when the Python test `message in response` holds, and the
literal reply `RECEIVER_READY` never contains the broadcast
`SENDER_REQUEST:...` text, so the reply is dropped and `find_receiver`
gets an empty device list. -/
theorem c1_discovery_drops_receiver_ready :
    receiverReplyTo "SENDER_REQUEST:report.pdf:2048:ABC123" = some "RECEIVER_READY"
    ∧ discoverCollect "SENDER_REQUEST:report.pdf:2048:ABC123"
        [("192.168.1.7", "RECEIVER_READY")] = []
    ∧ findReceiver
        (discoverCollect "SENDER_REQUEST:report.pdf:2048:ABC123"
          [("192.168.1.7", "RECEIVER_READY")]) ["10.0.0.2"] = none := by
  refine ⟨?_, ?_, ?_⟩ <;> rfl

/-! ## C2: streaming cipher -/

/-- Claim C2: for every 32-byte key hash, 16-byte IV, stream position
and chunk — and every AES-256 block core — the CTR-mode `update` is
length-preserving and `finalize` returns the empty byte string. -/
theorem c2_ctr_update_length_preserving (blockOf : List Nat → Nat → List Nat)
    (keyHash iv : List Nat) (pos : Nat) (data : List Nat)
    (hk : keyHash.length = 32) (hiv : iv.length = 16) :
    ((({ AESCTREncryptor.init blockOf keyHash iv with pos := pos }).update data).1.length
        = data.length)
    ∧ ({ AESCTREncryptor.init blockOf keyHash iv with pos := pos }).finalize = [] := by
  constructor
  · simp [AESCTREncryptor.update, List.length_zipWith]
  · rfl

/-- Witness for C2 at a concrete key, IV and chunk. -/
theorem c2_witness :
    ((({ AESCTREncryptor.init (fun _ _ => List.replicate 16 0)
          (List.replicate 32 0) (List.replicate 16 0) with pos := 0 }).update
        [1, 2, 3]).1.length = 3)
    ∧ ({ AESCTREncryptor.init (fun _ _ => List.replicate 16 0)
          (List.replicate 32 0) (List.replicate 16 0) with pos := 0 }).finalize = [] :=
  c2_ctr_update_length_preserving (fun _ _ => List.replicate 16 0)
    (List.replicate 32 0) (List.replicate 16 0) 0 [1, 2, 3] (by decide) (by decide)

/-! ## C9: compression level zero -/

/-- Claim C9: for every `TransferOptions` with `compression_level = 0`,
the COMPRESS flag bit of the header flags is clear regardless of the
enable boolean, the wire `compression_level` byte value is 0, and the
receiver treats compression as disabled whenever the header level is 0
even if the COMPRESS flag bit is set. -/
theorem c9_level_zero_disables_compression (o : TransferOptions)
    (h : o.compressionLevel = 0) (streamCount : Nat) (isDir : Bool) (flags : Nat) :
    (senderFlags o.normalized.enableCompression o.normalized.compressionLevel
        streamCount isDir) &&& 1 = 0
    ∧ wireLevel o.normalized.enableCompression o.normalized.compressionLevel = 0
    ∧ receiverCompressionEnabled flags 0 = false := by
  have hl : o.normalized.compressionLevel = 0 := by
    simp [TransferOptions.normalized, h]
  refine ⟨?_, ?_, ?_⟩
  · rw [senderFlags, hl]
    by_cases h1 : 1 < streamCount <;> cases isDir <;>
      simp [h1] <;> decide
  · rw [wireLevel, hl]
    simp
  · simp [receiverCompressionEnabled]

/-- Witness for C9 at concrete options with level 0 but compression
enabled, 3 streams, file mode, and a header with the COMPRESS bit set. -/
theorem c9_witness :
    (senderFlags (TransferOptions.normalized ⟨4194304, true, 0, 3⟩).enableCompression
        (TransferOptions.normalized ⟨4194304, true, 0, 3⟩).compressionLevel 3 false) &&& 1 = 0
    ∧ wireLevel (TransferOptions.normalized ⟨4194304, true, 0, 3⟩).enableCompression
        (TransferOptions.normalized ⟨4194304, true, 0, 3⟩).compressionLevel = 0
    ∧ receiverCompressionEnabled 7 0 = false :=
  c9_level_zero_disables_compression ⟨4194304, true, 0, 3⟩ (by decide) 3 false 7

/-! ## C10: CLI rejects non-files -/

/-- Claim C10: for every path that exists but is not a regular file (in
particular a directory), `cmd_send` exits with status 1 before a
`FileSender` is constructed, even though `FileSender.__init__` itself
supports directories (`is_directory` is set and `file_size` forced to
0). -/
theorem c10_cli_rejects_non_files (k : PathKind)
    (h1 : pathExists k = true) (h2 : pathIsFile k = false) :
    cmdSend k = .exitEarly 1
    ∧ (mkFileSender .directory 4096).isDirectory = true
    ∧ (mkFileSender .directory 4096).fileSize = 0 := by
  refine ⟨?_, rfl, rfl⟩
  rw [cmdSend, h1, h2]
  rfl

/-- Witness for C10 at a directory path. -/
theorem c10_witness :
    cmdSend .directory = .exitEarly 1
    ∧ (mkFileSender .directory 4096).isDirectory = true
    ∧ (mkFileSender .directory 4096).fileSize = 0 :=
  c10_cli_rejects_non_files .directory (by decide) (by decide)

/-! ## C7: wrong key declines -/

/-- Claim C7: whenever the operator accepts but the SHA-256 hash of the
normalised entered key differs from the header's `key_hash`, the
receiver's decision is the key-decline path: the control byte is `'N'`
(78), no output file is created, no segment task starts; and the sender,
observing any byte other than `'Y'` (89), reports decline and returns
`False`. -/
theorem c7_wrong_key_declines (hdr : PrimaryHeader) (opResp key : String)
    (hashFn : List Char → List Nat)
    (hop : operatorAccepts opResp = true)
    (hkey : hashFn (normalizeKey key.data) ≠ hdr.keyHash) :
    receiverDecision hdr opResp key hashFn = .declineKey
    ∧ firstControlByte (receiverDecision hdr opResp key hashFn) = 78
    ∧ createsOutputFile (receiverDecision hdr opResp key hashFn) = false
    ∧ startsStream0 (receiverDecision hdr opResp key hashFn) = false
    ∧ senderOnAcceptByte [78] = false
    ∧ ∀ b : List Nat, b ≠ [89] → senderOnAcceptByte b = false := by
  have hd : receiverDecision hdr opResp key hashFn = .declineKey := by
    simp [receiverDecision, hop, hkey]
  refine ⟨hd, by rw [hd]; rfl, by rw [hd]; rfl, by rw [hd]; rfl, rfl, ?_⟩
  intro b hb
  simp [senderOnAcceptByte, hb]

/-- Witness for C7 at a concrete header, operator answer, key and hash
function. -/
theorem c7_witness :
    receiverDecision wrongKeyHeader "y" " abc " (fun _ => List.replicate 32 0)
        = .declineKey
    ∧ firstControlByte (receiverDecision wrongKeyHeader "y" " abc "
        (fun _ => List.replicate 32 0)) = 78
    ∧ createsOutputFile (receiverDecision wrongKeyHeader "y" " abc "
        (fun _ => List.replicate 32 0)) = false
    ∧ startsStream0 (receiverDecision wrongKeyHeader "y" " abc "
        (fun _ => List.replicate 32 0)) = false
    ∧ senderOnAcceptByte [78] = false
    ∧ ∀ b : List Nat, b ≠ [89] → senderOnAcceptByte b = false :=
  c7_wrong_key_declines wrongKeyHeader "y" " abc " (fun _ => List.replicate 32 0)
    (by decide) (by decide)

/-! ## C4: no segment-range validation -/

/-- Counterexample for C4: a non-directory primary header whose single
segment `[5, 15)` lies outside `[0, 8)` parses fine, and with the
operator accepting and the key hash matching, the receiver's decision is
the accept path: it writes `'Y'` and starts the stream-0 segment task
instead of rejecting the handshake. -/
theorem c4_counterexample :
    parsePrimary (badRangeHeaderBytes.take 4) (badRangeHeaderBytes.drop 4)
        = some (badRangeHeader, [])
    ∧ segsOutOfRange badRangeHeader = true
    ∧ badRangeHeader.flags &&& 4 = 0
    ∧ receiverDecision badRangeHeader "y" "KEY123" (fun _ => List.replicate 32 0)
        = .acceptFile
    ∧ firstControlByte (receiverDecision badRangeHeader "y" "KEY123"
        (fun _ => List.replicate 32 0)) = 89
    ∧ startsStream0 (receiverDecision badRangeHeader "y" "KEY123"
        (fun _ => List.replicate 32 0)) = true := by
  refine ⟨?_, ?_, ?_, ?_, ?_, ?_⟩ <;> rfl

/-- Amended C4: the receiver performs no validation of segment ranges.
For every parsed non-directory primary header, operator acceptance plus
a matching key hash lead to the accept path — `'Y'` is written and the
stream-0 task starts — even when some segment's `[offset, offset+length)`
is not contained in `[0, total_size)`. -/
theorem c4_no_range_validation (hdr : PrimaryHeader) (opResp key : String)
    (hashFn : List Char → List Nat)
    (hop : operatorAccepts opResp = true)
    (hkey : hashFn (normalizeKey key.data) = hdr.keyHash)
    (hdir : hdr.flags &&& 4 = 0)
    (hbad : segsOutOfRange hdr = true) :
    receiverDecision hdr opResp key hashFn = .acceptFile
    ∧ firstControlByte (receiverDecision hdr opResp key hashFn) = 89
    ∧ startsStream0 (receiverDecision hdr opResp key hashFn) = true := by
  have hd : receiverDecision hdr opResp key hashFn = .acceptFile := by
    simp [receiverDecision, hop, hkey, hdir]
  exact ⟨hd, by rw [hd]; rfl, by rw [hd]; rfl⟩

/-- Witness for the amended C4 at the concrete out-of-range header. -/
theorem c4_witness :
    receiverDecision badRangeHeader "yes" "KEY123" (fun _ => List.replicate 32 0)
        = .acceptFile
    ∧ firstControlByte (receiverDecision badRangeHeader "yes" "KEY123"
        (fun _ => List.replicate 32 0)) = 89
    ∧ startsStream0 (receiverDecision badRangeHeader "yes" "KEY123"
        (fun _ => List.replicate 32 0)) = true :=
  c4_no_range_validation badRangeHeader "yes" "KEY123" (fun _ => List.replicate 32 0)
    (by decide) (by decide) (by decide) (by decide)

/-! ## C8: failure propagation -/

theorem runTasks_err (s : TState) (rs : List Bool) :
    (runTasks s rs).err = (s.err || rs.any id) := by
  induction rs generalizing s with
  | nil => simp [runTasks]
  | cons b rs ih =>
    show (runTasks (taskDone s b) rs).err = _
    rw [ih]
    simp [taskDone, Bool.or_assoc]

theorem runTasks_cancel (s : TState) (rs : List Bool) :
    (runTasks s rs).cancelIssued = (s.cancelIssued || rs.any id) := by
  induction rs generalizing s with
  | nil => simp [runTasks]
  | cons b rs ih =>
    show (runTasks (taskDone s b) rs).cancelIssued = _
    rw [ih]
    simp [taskDone, Bool.or_assoc]

theorem runTasks_done_mono (s : TState) (rs : List Bool)
    (h : s.doneEvent = true) : (runTasks s rs).doneEvent = true := by
  induction rs generalizing s with
  | nil => exact h
  | cons b rs ih =>
    show (runTasks (taskDone s b) rs).doneEvent = true
    exact ih _ (by simp [taskDone, h])

theorem runTasks_done_of_fail (s : TState) (rs : List Bool)
    (h : rs.any id = true) : (runTasks s rs).doneEvent = true := by
  induction rs generalizing s with
  | nil => simp at h
  | cons b rs ih =>
    show (runTasks (taskDone s b) rs).doneEvent = true
    cases b with
    | true => exact runTasks_done_mono _ _ (by simp [taskDone])
    | false =>
      simp only [List.any_cons, id, Bool.false_or] at h
      exact ih _ h

/-- Counterexample for C8: in a two-stream file-mode transfer whose
first finished task failed, the receiver's finish path prints the error,
writes `'N'` and closes — but performs no `removeFile`: the partial
output file is left in place, contrary to the claim. -/
theorem c8_counterexample :
    (runTasks (initTState 2) [true]).err = true
    ∧ (runTasks (initTState 2) [true]).cancelIssued = true
    ∧ finalPrimaryEffects (runTasks (initTState 2) [true])
        = [.printErr, .writeByte 78, .closeConn]
    ∧ Effect.removeFile ∉ finalPrimaryEffects (runTasks (initTState 2) [true]) := by
  refine ⟨rfl, rfl, rfl, ?_⟩
  decide

/-- Amended C8: when any segment task of a file-mode transfer fails, the
receiver records the error, cancels the sibling tasks, sets the
completion event, and its finish path writes `'N'` as the final byte on
the primary connection — but it does not remove the partial output file
(no `removeFile` effect occurs; only the directory mode removes its
partial target via `rmtree`). -/
theorem c8_failure_aborts_without_removal (n : Nat) (results : List Bool)
    (hfail : results.any id = true) :
    (runTasks (initTState n) results).err = true
    ∧ (runTasks (initTState n) results).cancelIssued = true
    ∧ (runTasks (initTState n) results).doneEvent = true
    ∧ finalPrimaryEffects (runTasks (initTState n) results)
        = [.printErr, .writeByte 78, .closeConn]
    ∧ Effect.removeFile ∉ finalPrimaryEffects (runTasks (initTState n) results)
    ∧ Effect.rmtreeDir ∈ finalTarEffects false := by
  have he : (runTasks (initTState n) results).err = true := by
    rw [runTasks_err]
    simp [initTState, hfail]
  have hc : (runTasks (initTState n) results).cancelIssued = true := by
    rw [runTasks_cancel]
    simp [initTState, hfail]
  have hf : finalPrimaryEffects (runTasks (initTState n) results)
      = [.printErr, .writeByte 78, .closeConn] := by
    simp [finalPrimaryEffects, he]
  refine ⟨he, hc, runTasks_done_of_fail _ _ hfail, hf, ?_, by decide⟩
  rw [hf]
  decide

/-- Witness for the amended C8 at a three-stream transfer whose second
finished task failed. -/
theorem c8_witness :
    (runTasks (initTState 3) [false, true]).err = true
    ∧ (runTasks (initTState 3) [false, true]).cancelIssued = true
    ∧ (runTasks (initTState 3) [false, true]).doneEvent = true
    ∧ finalPrimaryEffects (runTasks (initTState 3) [false, true])
        = [.printErr, .writeByte 78, .closeConn]
    ∧ Effect.removeFile ∉ finalPrimaryEffects (runTasks (initTState 3) [false, true])
    ∧ Effect.rmtreeDir ∈ finalTarEffects false :=
  c8_failure_aborts_without_removal 3 [false, true] (by decide)

/-! ## C6: "STRM" filenames -/

/-- Counterexample for C6: the sender's packer emits a well-formed
primary header for the four-byte filename "STRM" — there is no rejection
anywhere — and the receiver parses it back as a primary handshake (the
dispatch prefix is the length field `[0,0,0,4]`, not the filename). -/
theorem c6_counterexample :
    strmHeaderDemo.take 4 = [0, 0, 0, 4]
    ∧ dispatchIsStream (strmHeaderDemo.take 4) = false
    ∧ parsePrimary (strmHeaderDemo.take 4) (strmHeaderDemo.drop 4)
        = some (⟨strmBytes, 6, List.replicate 32 0, 0, 1, 1, 262144,
            List.replicate 16 9, [(List.replicate 16 7, 0, 6)]⟩, []) := by
  refine ⟨rfl, rfl, rfl⟩

/-- Amended C6: the implementation performs no filename rejection.  For
every filename, the sender emits a primary header whose first four bytes
are the big-endian filename length, and the receiver's four-byte
dispatch takes the connection for an auxiliary stream handshake exactly
when that length equals 0x5354524D (the integer reading of `b"STRM"`) —
the filename's own first bytes are irrelevant. -/
theorem c6_dispatch_is_by_length (fn : List Nat) (fileSize : Nat)
    (kh : List Nat) (flags : Nat) (enable : Bool) (level : Int)
    (chunkSize : Nat) (tid : List Nat) (segs : List (List Nat × Nat × Nat))
    (hlen : fn.length < 2 ^ 32) :
    (buildHeader fn fileSize kh flags enable level chunkSize tid segs).take 4
        = pack32 fn.length
    ∧ (dispatchIsStream (pack32 fn.length) = true ↔ fn.length = 1398035021) := by
  constructor
  · simp [buildHeader, pack32]
  · constructor
    · intro h
      simp only [dispatchIsStream, pack32, strmBytes, beq_iff_eq,
        List.cons.injEq, and_true] at h
      omega
    · intro h
      rw [h]
      decide

/-- Witness for the amended C6 at the "STRM" filename itself. -/
theorem c6_witness :
    (buildHeader strmBytes 6 (List.replicate 32 0) 0 true 1 262144
        (List.replicate 16 9) [(List.replicate 16 7, 0, 6)]).take 4
      = pack32 (strmBytes.length)
    ∧ (dispatchIsStream (pack32 strmBytes.length) = true
        ↔ strmBytes.length = 1398035021) :=
  c6_dispatch_is_by_length strmBytes 6 (List.replicate 32 0) 0 true 1 262144
    (List.replicate 16 9) [(List.replicate 16 7, 0, 6)] (by decide)

/-! ## C5: segment planning -/

theorem sumLens_cons (st len : Nat) (rest : List (Nat × Nat)) :
    sumLens ((st, len) :: rest) = len + sumLens rest := by
  simp [sumLens]

theorem buildSegsAux_length (base : Nat) :
    ∀ k r o, (buildSegsAux base k r o).length = k := by
  intro k
  induction k with
  | zero => intro r o; rfl
  | succ k ih => intro r o; simp [buildSegsAux, ih]

theorem buildSegsAux_chain (base : Nat) :
    ∀ k r o, chainFromB o (buildSegsAux base k r o) = true := by
  intro k
  induction k with
  | zero => intro r o; rfl
  | succ k ih => intro r o; simp [buildSegsAux, chainFromB, ih]

theorem buildSegsAux_sum (base : Nat) :
    ∀ k r o, sumLens (buildSegsAux base k r o) = min (base * k) r := by
  intro k
  induction k with
  | zero => intro r o; simp [buildSegsAux, sumLens]
  | succ k ih =>
    intro r o
    rw [buildSegsAux, sumLens_cons, ih]
    have hmul : base * (k + 1) = base * k + base := by ring
    rw [hmul]
    omega

theorem chain_getLast (segs : List (Nat × Nat)) :
    ∀ o st len, chainFromB o segs = true → segs.getLast? = some (st, len) →
      st + len = o + sumLens segs := by
  induction segs with
  | nil => intro o st len _ hl; simp at hl
  | cons a rest ih =>
    intro o st len hch hl
    rcases a with ⟨ast, alen⟩
    rw [chainFromB, Bool.and_eq_true, beq_iff_eq] at hch
    cases rest with
    | nil =>
      simp only [List.getLast?_singleton, Option.some.injEq, Prod.mk.injEq] at hl
      rw [sumLens_cons]
      simp [sumLens, ← hl.1, ← hl.2, hch.1]
    | cons b rest' =>
      rw [List.getLast?_cons_cons] at hl
      have := ih (o + alen) st len hch.2 hl
      rw [sumLens_cons]
      omega

theorem chain_getD_start_ge (segs : List (Nat × Nat)) :
    ∀ o, chainFromB o segs = true →
      ∀ i, i < segs.length → o ≤ (segs.getD i (0, 0)).1 := by
  induction segs with
  | nil => intro o _ i hi; simp at hi
  | cons a rest ih =>
    intro o hch i hi
    rcases a with ⟨ast, alen⟩
    rw [chainFromB, Bool.and_eq_true, beq_iff_eq] at hch
    cases i with
    | zero => simp [hch.1]
    | succ i =>
      simp only [List.getD_cons_succ]
      have := ih (o + alen) hch.2 i (by simpa using hi)
      omega

theorem chain_disjoint (segs : List (Nat × Nat)) :
    ∀ o, chainFromB o segs = true →
      ∀ i j, i < j → j < segs.length →
        (segs.getD i (0, 0)).1 + (segs.getD i (0, 0)).2 ≤ (segs.getD j (0, 0)).1 := by
  induction segs with
  | nil => intro o _ i j _ hj; simp at hj
  | cons a rest ih =>
    intro o hch i j hij hj
    rcases a with ⟨ast, alen⟩
    rw [chainFromB, Bool.and_eq_true, beq_iff_eq] at hch
    cases i with
    | zero =>
      cases j with
      | zero => omega
      | succ j =>
        simp only [List.getD_cons_zero, List.getD_cons_succ]
        have := chain_getD_start_ge rest (o + alen) hch.2 j (by simpa using hj)
        omega
    | succ i =>
      cases j with
      | zero => omega
      | succ j =>
        simp only [List.getD_cons_succ]
        exact ih (o + alen) hch.2 i j (by omega) (by simpa using hj)

theorem ceil_mul_ge (s n : Nat) (hn1 : 1 ≤ n) (hn4 : n ≤ 4) :
    s ≤ (s + n - 1) / n * n := by
  interval_cases n <;> omega

/-- Claim C5: for every file size of at least one byte and stream count
in `[1,4]`, the planner's segments partition `[0, file_size)` exactly:
there are `stream_count` of them, their starts run consecutively from 0,
their lengths sum to the file size, earlier segments end before later
ones start, and the last segment ends exactly at the file size (it
absorbs the rounding remainder of the base length
`ceil(file_size / stream_count)`). -/
theorem c5_segments_partition (s n : Nat) (hs : 1 ≤ s) (hn1 : 1 ≤ n) (hn4 : n ≤ 4) :
    (buildSegments s n).length = n
    ∧ chainFromB 0 (buildSegments s n) = true
    ∧ sumLens (buildSegments s n) = s
    ∧ (∀ i j, i < j → j < (buildSegments s n).length →
        ((buildSegments s n).getD i (0, 0)).1 + ((buildSegments s n).getD i (0, 0)).2
          ≤ ((buildSegments s n).getD j (0, 0)).1)
    ∧ (∀ st len, (buildSegments s n).getLast? = some (st, len) → st + len = s)
    ∧ ((buildSegments s n).getD 0 (0, 0)).1 = 0 := by
  have hne : n ≠ 0 := by omega
  have hsum0 : sumLens (buildSegsAux ((s + n - 1) / n) n s 0) = s := by
    rw [buildSegsAux_sum]
    have := ceil_mul_ge s n hn1 hn4
    omega
  have hch0 : chainFromB 0 (buildSegsAux ((s + n - 1) / n) n s 0) = true :=
    buildSegsAux_chain _ n s 0
  have hlen0 : (buildSegsAux ((s + n - 1) / n) n s 0).length = n :=
    buildSegsAux_length _ n s 0
  obtain ⟨⟨lst, llen⟩, hp⟩ :
      ∃ p, (buildSegsAux ((s + n - 1) / n) n s 0).getLast? = some p := by
    cases hsegs : buildSegsAux ((s + n - 1) / n) n s 0 with
    | nil =>
      rw [hsegs] at hlen0
      simp at hlen0
      omega
    | cons a t => exact ⟨_, List.getLast?_eq_getLast (a :: t) (by simp)⟩
  have hend : lst + llen = s := by
    have h := chain_getLast _ 0 lst llen hch0 hp
    rw [hsum0] at h
    omega
  have hbs : buildSegments s n = buildSegsAux ((s + n - 1) / n) n s 0 := by
    simp only [buildSegments, if_neg hne]
    rw [hp]
    simp only [if_neg (by omega : ¬ lst + llen < s)]
  refine ⟨?_, ?_, ?_, ?_, ?_, ?_⟩
  · rw [hbs]; exact hlen0
  · rw [hbs]; exact hch0
  · rw [hbs]; exact hsum0
  · rw [hbs]
    intro i j hij hj
    exact chain_disjoint _ 0 hch0 i j hij hj
  · rw [hbs]
    intro st len hl
    rw [hp] at hl
    simp only [Option.some.injEq, Prod.mk.injEq] at hl
    omega
  · rw [hbs]
    cases hsegs : buildSegsAux ((s + n - 1) / n) n s 0 with
    | nil =>
      rw [hsegs] at hlen0
      simp at hlen0
      omega
    | cons a t =>
      rcases a with ⟨ast, alen⟩
      rw [hsegs] at hch0
      rw [chainFromB, Bool.and_eq_true, beq_iff_eq] at hch0
      simp [hch0.1]

/-- Witness for C5 at `file_size = 10`, `stream_count = 4`. -/
theorem c5_witness :
    chainFromB 0 (buildSegments 10 4) = true
    ∧ sumLens (buildSegments 10 4) = 10
    ∧ (buildSegments 10 4).length = 4 :=
  ⟨(c5_segments_partition 10 4 (by decide) (by decide) (by decide)).2.1,
   (c5_segments_partition 10 4 (by decide) (by decide) (by decide)).2.2.1,
   (c5_segments_partition 10 4 (by decide) (by decide) (by decide)).1⟩

/-! ## C3: tar extraction path safety -/

theorem isEmpty_eq_nil {α : Type} (l : List α) : l.isEmpty = true ↔ l = [] := by
  cases l <;> simp

theorem mem_of_mem_dropLast {α : Type} : ∀ {l : List α} {x : α},
    x ∈ l.dropLast → x ∈ l := by
  intro l
  induction l with
  | nil => intro x h; simp at h
  | cons a l' ih =>
    intro x h
    cases l' with
    | nil => simp at h
    | cons b l'' =>
      have hd : (a :: b :: l'').dropLast = a :: (b :: l'').dropLast := rfl
      rw [hd] at h
      rcases List.mem_cons.mp h with rfl | h
      · simp
      · exact List.mem_cons_of_mem _ (ih h)

theorem flatSep_nil : flatSep [] = [] := rfl

theorem flatSep_cons (c : List Char) (cs : List (List Char)) :
    flatSep (c :: cs) = '/' :: (c ++ flatSep cs) := rfl

theorem flatSep_seed : ∀ (cs : List (List Char)) (x : List Char),
    cs.foldr (fun c acc => '/' :: (c ++ acc)) x = flatSep cs ++ x := by
  intro cs
  induction cs with
  | nil => intro x; rfl
  | cons c cs' ih =>
    intro x
    rw [List.foldr_cons, ih, flatSep_cons]
    simp

theorem flatSep_append (a b : List (List Char)) :
    flatSep (a ++ b) = flatSep a ++ flatSep b := by
  rw [flatSep, List.foldr_append]
  exact flatSep_seed a (flatSep b)

theorem splitSlashAux_nil (cur : List Char) : splitSlashAux [] cur = [cur.reverse] := rfl

theorem splitSlashAux_cons_slash (rest cur : List Char) :
    splitSlashAux ('/' :: rest) cur = cur.reverse :: splitSlashAux rest [] := by
  simp [splitSlashAux]

theorem splitSlashAux_cons_ne (a : Char) (rest cur : List Char) (ha : a ≠ '/') :
    splitSlashAux (a :: rest) cur = splitSlashAux rest (a :: cur) := by
  simp [splitSlashAux, ha]

theorem splitSlash_append_slash : ∀ (x cur y : List Char),
    splitSlashAux (x ++ '/' :: y) cur = splitSlashAux x cur ++ splitSlash y := by
  intro x
  induction x with
  | nil =>
    intro cur y
    rw [List.nil_append, splitSlashAux_cons_slash, splitSlashAux_nil, splitSlash]
    rfl
  | cons a x' ih =>
    intro cur y
    by_cases ha : a = '/'
    · subst ha
      rw [List.cons_append, splitSlashAux_cons_slash, splitSlashAux_cons_slash, ih]
      rfl
    · rw [List.cons_append, splitSlashAux_cons_ne _ _ _ ha,
        splitSlashAux_cons_ne _ _ _ ha, ih]

theorem splitSlashAux_run : ∀ (c r cur : List Char),
    (∀ x ∈ c, x ≠ '/') → splitSlashAux (c ++ r) cur = splitSlashAux r (c.reverse ++ cur) := by
  intro c
  induction c with
  | nil => intro r cur _; rfl
  | cons a c' ih =>
    intro r cur hc
    have ha : a ≠ '/' := hc a (by simp)
    rw [List.cons_append, splitSlashAux_cons_ne _ _ _ ha,
      ih _ _ (fun x hx => hc x (by simp [hx]))]
    congr 1
    simp

theorem splitSlashAux_flat : ∀ (cs : List (List Char)) (cur : List Char),
    (∀ c ∈ cs, ∀ x ∈ c, x ≠ '/') →
    splitSlashAux (flatSep cs) cur = cur.reverse :: cs := by
  intro cs
  induction cs with
  | nil => intro cur _; rfl
  | cons c cs' ih =>
    intro cur h
    rw [flatSep_cons, splitSlashAux_cons_slash,
      splitSlashAux_run c (flatSep cs') [] (h c (by simp)),
      ih (c.reverse ++ []) (fun d hd => h d (by simp [hd]))]
    simp

theorem splitSlash_flatSep (cs : List (List Char))
    (h : ∀ c ∈ cs, ∀ x ∈ c, x ≠ '/') : splitSlash (flatSep cs) = [] :: cs := by
  rw [splitSlash, splitSlashAux_flat cs [] h]
  rfl

theorem mem_splitSlashAux : ∀ (s cur : List Char), (∀ x ∈ cur, x ≠ '/') →
    ∀ c ∈ splitSlashAux s cur, ∀ x ∈ c, x ≠ '/' := by
  intro s
  induction s with
  | nil =>
    intro cur hcur c hc x hx
    rw [splitSlashAux_nil] at hc
    simp only [List.mem_singleton] at hc
    subst hc
    exact hcur x (by simpa using hx)
  | cons a s' ih =>
    intro cur hcur c hc x hx
    by_cases ha : a = '/'
    · subst ha
      rw [splitSlashAux_cons_slash] at hc
      rcases List.mem_cons.mp hc with rfl | hc
      · exact hcur x (by simpa using hx)
      · exact ih [] (by simp) c hc x hx
    · rw [splitSlashAux_cons_ne _ _ _ ha] at hc
      refine ih (a :: cur) ?_ c hc x hx
      intro z hz
      rcases List.mem_cons.mp hz with rfl | hz
      · exact ha
      · exact hcur z hz

theorem mem_foldl_normStep : ∀ (cs acc : List (List Char)),
    (∀ c ∈ acc, goodComp c) → (∀ c ∈ cs, ∀ x ∈ c, x ≠ '/') →
    ∀ c ∈ List.foldl normStep acc cs, goodComp c := by
  intro cs
  induction cs with
  | nil => intro acc hacc _ c hc; exact hacc c hc
  | cons d cs' ih =>
    intro acc hacc hcs c hc
    rw [List.foldl_cons] at hc
    refine ih (normStep acc d) ?_ (fun e he x hx => hcs e (by simp [he]) x hx) c hc
    intro e he
    rw [normStep] at he
    by_cases h1 : d = [] ∨ d = ['.']
    · rw [if_pos h1] at he
      exact hacc e he
    · rw [if_neg h1] at he
      by_cases h2 : d = ['.', '.']
      · rw [if_pos h2] at he
        exact hacc e (mem_of_mem_dropLast he)
      · rw [if_neg h2] at he
        rcases List.mem_append.mp he with he | he
        · exact hacc e he
        · simp only [List.mem_singleton] at he
          subst he
          exact ⟨fun hd => h1 (Or.inl hd), fun hd => h1 (Or.inr hd), h2,
            fun x hx => hcs e (by simp) x hx⟩

theorem good_abspathComps (s : List Char) : ∀ c ∈ abspathComps s, goodComp c := by
  intro c hc
  rw [abspathComps, normComps] at hc
  exact mem_foldl_normStep (splitSlash s) [] (by simp)
    (mem_splitSlashAux s [] (by simp)) c hc

theorem foldl_normStep_good : ∀ (cs acc : List (List Char)),
    (∀ c ∈ cs, goodComp c) → List.foldl normStep acc cs = acc ++ cs := by
  intro cs
  induction cs with
  | nil => intro acc _; simp
  | cons d cs' ih =>
    intro acc h
    rw [List.foldl_cons]
    have hd := h d (by simp)
    have hstep : normStep acc d = acc ++ [d] := by
      rw [normStep, if_neg, if_neg hd.2.2.1]
      intro h1
      rcases h1 with h1 | h1
      · exact hd.1 h1
      · exact hd.2.1 h1
    rw [hstep, ih (acc ++ [d]) (fun c hc => h c (by simp [hc]))]
    simp

theorem startsWithGen_cancel : ∀ (b t l1 l2 : List Char),
    (∀ x ∈ b, x ≠ '/') → (∀ x ∈ t, x ≠ '/') →
    l1.head? = some '/' → (l2 = [] ∨ l2.head? = some '/') →
    startsWithGen (b ++ l1) (t ++ l2) = true →
    b = t ∧ startsWithGen l1 l2 = true := by
  intro b
  induction b with
  | nil =>
    intro t l1 l2 _ ht h1 _ h
    cases t with
    | nil => exact ⟨rfl, h⟩
    | cons c t' =>
      exfalso
      cases l1 with
      | nil => simp at h1
      | cons a l1' =>
        simp only [List.head?_cons, Option.some.injEq] at h1
        subst h1
        rw [List.nil_append, List.cons_append, startsWithGen,
          Bool.and_eq_true, beq_iff_eq] at h
        exact ht c (by simp) h.1.symm
  | cons y b' ih =>
    intro t l1 l2 hb ht h1 h2 h
    cases t with
    | nil =>
      exfalso
      rw [List.nil_append] at h
      rcases h2 with rfl | h2
      · rw [List.cons_append, startsWithGen] at h
        simp at h
      · cases l2 with
        | nil => simp at h2
        | cons a l2' =>
          simp only [List.head?_cons, Option.some.injEq] at h2
          subst h2
          rw [List.cons_append, startsWithGen, Bool.and_eq_true, beq_iff_eq] at h
          exact hb y (by simp) h.1
    | cons c t' =>
      rw [List.cons_append, List.cons_append, startsWithGen,
        Bool.and_eq_true, beq_iff_eq] at h
      obtain ⟨rfl, h⟩ := h
      have hrec := ih t' l1 l2 (fun x hx => hb x (by simp [hx]))
        (fun x hx => ht x (by simp [hx])) h1 h2 h
      exact ⟨by rw [hrec.1], hrec.2⟩

theorem flat_lead : ∀ (bc tc : List (List Char)),
    (∀ c ∈ bc, goodComp c) → (∀ c ∈ tc, goodComp c) →
    startsWithGen (flatSep bc ++ ['/']) (flatSep tc) = true →
    startsWithGen bc tc = true := by
  intro bc
  induction bc with
  | nil => intro tc _ _ _; rfl
  | cons b bs ih =>
    intro tc hbc htc h
    cases tc with
    | nil =>
      exfalso
      rw [flatSep_nil] at h
      have := (startsWithGen_nil_iff _).mp h
      rw [flatSep_cons] at this
      simp at this
    | cons t ts =>
      rw [flatSep_cons, flatSep_cons, List.cons_append, startsWithGen,
        Bool.and_eq_true] at h
      have h' := h.2
      rw [List.append_assoc] at h'
      have hhead : (flatSep bs ++ ['/']).head? = some '/' := by
        cases bs with
        | nil => rfl
        | cons u us => rw [flatSep_cons]; rfl
      have htail : flatSep ts = [] ∨ (flatSep ts).head? = some '/' := by
        cases ts with
        | nil => exact Or.inl rfl
        | cons u us => exact Or.inr (by rw [flatSep_cons]; rfl)
      obtain ⟨rfl, hrest⟩ := startsWithGen_cancel b t _ _
        ((hbc b (by simp)).2.2.2) ((htc t (by simp)).2.2.2) hhead htail h'
      have htl := ih ts (fun c hc => hbc c (by simp [hc]))
        (fun c hc => htc c (by simp [hc])) hrest
      rw [startsWithGen, Bool.and_eq_true]
      exact ⟨by simp, htl⟩

theorem lead_flat (bc tc : List (List Char)) (h : startsWithGen bc tc = true) :
    flatSep tc = flatSep bc ∨
      startsWithGen (flatSep bc ++ ['/']) (flatSep tc) = true := by
  obtain ⟨r, rfl⟩ := (startsWithGen_iff bc tc).mp h
  cases r with
  | nil => left; rw [List.append_nil]
  | cons c r' =>
    right
    rw [flatSep_append, flatSep_cons]
    have hsplit : flatSep bc ++ '/' :: (c ++ flatSep r')
        = (flatSep bc ++ ['/']) ++ (c ++ flatSep r') := by simp
    rw [hsplit]
    exact startsWithGen_append_self _ _

theorem guard_iff_lead (b : List Char) (tc : List (List Char))
    (hb : abspathComps b ≠ []) (htc : ∀ c ∈ tc, goodComp c) :
    (startsWithGen (abspathM b ++ ['/']) (renderComps tc)
        || (renderComps tc == abspathM b)) = true
      ↔ startsWithGen (abspathComps b) tc = true := by
  have hbg : ∀ c ∈ abspathComps b, goodComp c := good_abspathComps b
  have hbase : abspathM b = flatSep (abspathComps b) := by
    rw [abspathM, renderComps, if_neg]
    intro h
    exact hb ((isEmpty_eq_nil _).mp h)
  rw [hbase]
  cases tc with
  | nil =>
    have hr : renderComps ([] : List (List Char)) = ['/'] := rfl
    rw [hr]
    constructor
    · intro h
      exfalso
      obtain ⟨b1, bs, hbc⟩ : ∃ b1 bs, abspathComps b = b1 :: bs := by
        cases hx : abspathComps b with
        | nil => exact absurd hx hb
        | cons b1 bs => exact ⟨b1, bs, rfl⟩
      rw [hbc, flatSep_cons, Bool.or_eq_true] at h
      rcases h with h | h
      · rw [List.cons_append, startsWithGen, Bool.and_eq_true] at h
        have := (startsWithGen_nil_iff _).mp h.2
        simp at this
      · rw [beq_iff_eq] at h
        injection h with _ h2
        have hb1 := (hbg b1 (by rw [hbc]; simp)).1
        rcases List.append_eq_nil.mp h2.symm with ⟨h3, _⟩
        exact hb1 h3
    · intro h
      exfalso
      exact hb ((startsWithGen_nil_iff _).mp h)
  | cons t ts =>
    have hne : renderComps (t :: ts) = flatSep (t :: ts) := rfl
    rw [hne]
    constructor
    · intro h
      rw [Bool.or_eq_true] at h
      rcases h with h | h
      · exact flat_lead _ _ hbg htc h
      · rw [beq_iff_eq] at h
        have hslash1 : ∀ c ∈ (t :: ts), ∀ x ∈ c, x ≠ '/' :=
          fun c hc => (htc c hc).2.2.2
        have hslash2 : ∀ c ∈ abspathComps b, ∀ x ∈ c, x ≠ '/' :=
          fun c hc => (hbg c hc).2.2.2
        have hcg := congrArg splitSlash h
        rw [splitSlash_flatSep _ hslash1, splitSlash_flatSep _ hslash2] at hcg
        injection hcg with _ h2
        rw [h2]
        exact (startsWithGen_iff _ _).mpr ⟨[], List.append_nil _⟩
    · intro h
      rcases lead_flat _ _ h with h | h
      · rw [Bool.or_eq_true]
        right
        rw [beq_iff_eq]
        exact h
      · rw [Bool.or_eq_true]
        left
        exact h

theorem abspathComps_render (tc : List (List Char)) (htc : ∀ c ∈ tc, goodComp c)
    (hne : tc ≠ []) : abspathComps (renderComps tc) = tc := by
  rw [renderComps, if_neg (fun h => hne ((isEmpty_eq_nil _).mp h))]
  rw [abspathComps, splitSlash_flatSep _ (fun c hc => (htc c hc).2.2.2)]
  rw [normComps, List.foldl_cons]
  have h0 : normStep [] [] = [] := by rw [normStep, if_pos (Or.inl rfl)]
  rw [h0, foldl_normStep_good tc [] htc]
  simp

theorem lstrip_head_ne_slash : ∀ (m : List Char),
    (lstripDotSlash m).head? ≠ some '/' := by
  intro m
  induction m with
  | nil => simp [lstripDotSlash]
  | cons a m' ih =>
    rw [lstripDotSlash, List.dropWhile_cons]
    by_cases ha : isSepDot a = true
    · rw [if_pos ha]
      exact ih
    · rw [if_neg ha]
      simp only [List.head?_cons]
      intro hx
      injection hx with hx
      subst hx
      exact ha (by decide)

theorem joinPath_lstrip (base m : List Char) :
    joinPath base (lstripDotSlash m) = base ++ '/' :: lstripDotSlash m := by
  rw [joinPath, if_neg (lstrip_head_ne_slash m)]

theorem extractTarget_eq (b m : List Char) (hb : abspathComps b ≠ []) :
    extractTarget b m =
      (if startsWithGen (abspathComps b) (extractComps b m) = true
       then Except.ok (renderComps (extractComps b m))
       else Except.error (lstripDotSlash m)) := by
  have htcg : ∀ c ∈ extractComps b m, goodComp c :=
    good_abspathComps (joinPath (abspathM b) (lstripDotSlash m))
  have hkey : extractTarget b m =
      (if (startsWithGen (abspathM b ++ ['/']) (renderComps (extractComps b m))
          || (renderComps (extractComps b m) == abspathM b)) = true
       then Except.ok (renderComps (extractComps b m))
       else Except.error (lstripDotSlash m)) := rfl
  rw [hkey]
  by_cases hsw : startsWithGen (abspathComps b) (extractComps b m) = true
  · rw [if_pos ((guard_iff_lead b (extractComps b m) hb htcg).mpr hsw), if_pos hsw]
  · rw [if_neg (fun hg => hsw ((guard_iff_lead b (extractComps b m) hb htcg).mp hg)),
      if_neg hsw]

/-- Counterexample for C3: the tar entry named `../../etc/passwd` — the
claim's own example of a name resolving outside the target — does NOT
raise `UnsafePath`: `lstrip("./")` removes the entire `../../` run, so
the entry is extracted inside the target at `<target>/etc/passwd`. -/
theorem c3_counterexample :
    extractTarget "/srv/downloads/pkg".data "../../etc/passwd".data
      = Except.ok "/srv/downloads/pkg/etc/passwd".data := by
  rfl

/-- Amended C3: entry names are first stripped of every leading `'.'` and
`'/'` character; for every entry whose stripped name still resolves
outside the target directory, `_safe_join` raises the fatal `UnsafePath`
(`ValueError`), and every path it does return resolves to a descendant
of the target directory (its normalised components extend the target's),
so no file is created outside the target. -/
theorem c3_extraction_path_safety (b m : List Char) (hb : abspathComps b ≠ []) :
    (startsWithGen (abspathComps b) (extractComps b m) = false →
      extractTarget b m = Except.error (lstripDotSlash m))
    ∧ (∀ t, extractTarget b m = Except.ok t →
        startsWithGen (abspathComps b) (abspathComps t) = true
        ∧ t = renderComps (extractComps b m)) := by
  have hchar := extractTarget_eq b m hb
  constructor
  · intro hf
    rw [hchar, if_neg]
    rw [hf]
    simp
  · intro t ht
    rw [hchar] at ht
    by_cases hsw : startsWithGen (abspathComps b) (extractComps b m) = true
    · rw [if_pos hsw] at ht
      injection ht with ht
      have htc : ∀ c ∈ extractComps b m, goodComp c :=
        good_abspathComps (joinPath (abspathM b) (lstripDotSlash m))
      have hnil : extractComps b m ≠ [] := by
        intro h0
        rw [h0] at hsw
        exact hb ((startsWithGen_nil_iff _).mp hsw)
      constructor
      · rw [← ht, abspathComps_render _ htc hnil]
        exact hsw
      · exact ht.symm
    · rw [if_neg hsw] at ht
      exact Except.noConfusion ht

/-- Witness for the amended C3: the entry `a/../../b` (whose stripped
name still climbs out of the target) is rejected with the `UnsafePath`
error. -/
theorem c3_witness :
    extractTarget "/srv/downloads/pkg".data "a/../../b".data
      = Except.error (lstripDotSlash "a/../../b".data) :=
  (c3_extraction_path_safety "/srv/downloads/pkg".data "a/../../b".data
    (by decide)).1 (by decide)
